import Mathlib

/-!
Verification of the schema-to-module transformation pipeline of the
rapid-front code generator (`src/mapper/swagger-mapper.ts`,
`src/generator/code-generator.ts`, `src/generator/template-engine.ts`).

The TypeScript sources are shallowly embedded below.  JavaScript strings
are modelled as Lean `String`, with the character-level algorithms
(`split`, the camel-case regex replacement, `capitalize`, case mapping)
implemented over `List Char`.  JavaScript case mapping is modelled with
the ASCII maps `Char.toUpper` / `Char.toLower`.  JavaScript objects that
the mapper iterates with `Object.entries` are modelled as association
lists in entry order; `Map` objects are association lists with the
JavaScript `Map` insertion-order/overwrite-in-place semantics.
Absent (`undefined`) values are modelled with `Option`; the JavaScript
truthiness tests performed by the source are reproduced explicitly
(in particular: an absent field is falsy, an empty string is falsy, an
empty array or object is truthy).
-/

/-! ## JavaScript string primitives -/

/-- `s.split(sep)` for a single-character separator, on character lists.
Splitting the empty string yields `[[]]`, as in JavaScript. -/
def splitChar (sep : Char) : List Char → List (List Char)
  | [] => [[]]
  | c :: cs =>
    match splitChar sep cs with
    | [] => [[c]]
    | g :: gs => if c = sep then [] :: g :: gs else (c :: g) :: gs

/-- `str.replace(/[-_](.)/g, (_, char) => char.toUpperCase())` from
`SwaggerMapper.toCamelCase`:  each non-overlapping match of a hyphen or
underscore followed by any character other than a newline (`.` does not
match `\n`) is replaced by the upper-cased following character; scanning
proceeds left to right and resumes after each match. -/
def camelChars : List Char → List Char
  | [] => []
  | [c] => [c]
  | c :: d :: rest =>
    if (c = '-' ∨ c = '_') ∧ d ≠ '\n' then Char.toUpper d :: camelChars rest
    else c :: camelChars (d :: rest)

/-- `SwaggerMapper.capitalize`: `str.charAt(0).toUpperCase() + str.slice(1)`
(identity on the empty string). -/
def capitalizeChars : List Char → List Char
  | [] => []
  | c :: cs => Char.toUpper c :: cs

/-- `SwaggerMapper.toCamelCase` on `String`. -/
def toCamelCase (s : String) : String := ⟨camelChars s.data⟩

/-- `SwaggerMapper.capitalize` on `String`. -/
def capitalize (s : String) : String := ⟨capitalizeChars s.data⟩

/-- `str.toLowerCase()` (ASCII). -/
def jsToLower (s : String) : String := ⟨s.data.map Char.toLower⟩

/-- `str.toUpperCase()` (ASCII). -/
def jsToUpper (s : String) : String := ⟨s.data.map Char.toUpper⟩

/-- JavaScript `x || d` for a possibly-absent string `x`: an absent value
and the empty string are falsy and select the default. -/
def orString (o : Option String) (d : String) : String :=
  match o with
  | some s => if s = "" then d else s
  | none => d

/-- JavaScript truthiness of a possibly-absent string. -/
def strTruthy (o : Option String) : Bool :=
  match o with
  | some s => s ≠ ""
  | none => false

/-- JavaScript truthiness of a possibly-absent boolean, as in
`param.required || false`. -/
def orFalse (o : Option Bool) : Bool := o.getD false

/-- Split on `/` and keep the non-empty segments, as in
`path.split('/').filter(s => s.length > 0)`. -/
def jsNonEmptySegments (sep : Char) (l : List Char) : List (List Char) :=
  (splitChar sep l).filter (fun s => s.length > 0)

/-- Separator class of the regex `/[\s-_]+/` used by
`SwaggerMapper.tagToModuleName` (ASCII whitespace, hyphen, underscore). -/
def tagSepChar (c : Char) : Bool :=
  c == ' ' || c == '-' || c == '_' || c == '\t' || c == '\n' || c == '\r' ||
  c == '\x0b' || c == '\x0c'

/-- `str.split(/[sep]+/)`: split on maximal runs of separator characters.
Boundary separators produce empty fields, interior runs collapse. -/
def splitRuns (p : Char → Bool) : List Char → List (List Char)
  | [] => [[]]
  | c :: cs =>
    if p c then [] :: splitRuns p (cs.dropWhile p)
    else
      match splitRuns p cs with
      | [] => [[c]]
      | g :: gs => (c :: g) :: gs
termination_by l => l.length
decreasing_by
  · simp only [List.length_cons]
    exact Nat.lt_succ_of_le (List.dropWhile_sublist p).length_le
  · simp

/-! ## Data model (`src/types.ts`) -/

/-- A raw schema node of the dereferenced document, as accessed by the
mapper: the `$ref`, `type` and `items` fields.  `null` stands for an
absent (or JavaScript-falsy) node. -/
inductive SchemaNode where
  | null : SchemaNode
  | obj (ref : Option String) (ty : Option String) (items : SchemaNode) : SchemaNode
deriving DecidableEq, Repr

/-- `SchemaMetadata`: `name`, `properties` (entry-ordered), `required`.
The source (`extractSchemas`) leaves `required` absent when the raw
definition has no `required` field, hence the `Option`. -/
structure SchemaMetadata where
  name : String
  properties : List (String × SchemaNode)
  required : Option (List String)
deriving DecidableEq, Repr

/-- `ParameterMetadata`.  The source field `in` is called `paramIn` here. -/
structure ParameterMetadata where
  name : String
  paramIn : String
  required : Bool
  type : String
  description : Option String
deriving DecidableEq, Repr

/-- `RequestBodyMetadata`. -/
structure RequestBodyMetadata where
  required : Bool
  contentType : String
  schema : String
deriving DecidableEq, Repr

/-- `ResponseMetadata`. -/
structure ResponseMetadata where
  statusCode : String
  description : Option String
  schema : Option String
deriving DecidableEq, Repr

/-- `EndpointMetadata`. -/
structure EndpointMetadata where
  operationId : String
  functionName : String
  method : String
  path : String
  summary : Option String
  description : Option String
  parameters : List ParameterMetadata
  requestBody : Option RequestBodyMetadata
  responses : List ResponseMetadata
  tags : List String
deriving DecidableEq, Repr

/-- `ModuleMetadata`. -/
structure ModuleMetadata where
  moduleName : String
  tag : String
  endpoints : List EndpointMetadata
  schemas : List SchemaMetadata
deriving DecidableEq, Repr

/-! ## Raw document shape (input of the mapper) -/

/-- A media-type object of a `content` map; its `schema` field may be
absent (`SchemaNode.null`).  A present media-type object is truthy. -/
structure MediaObj where
  schema : SchemaNode
deriving DecidableEq, Repr

/-- A raw operation parameter. -/
structure RawParameter where
  name : String
  paramIn : String
  required : Option Bool
  schema : SchemaNode
  description : Option String
deriving DecidableEq, Repr

/-- A raw `requestBody` object; `content` is the entry-ordered media-type
map (`requestBody.content || {}` collapses an absent map to `[]`). -/
structure RawRequestBody where
  required : Option Bool
  content : Option (List (String × MediaObj))
deriving DecidableEq, Repr

/-- A raw response object.  `content` is `none` when the field is absent
(`if (!response.content) return undefined`); a present-but-empty map is
truthy. -/
structure RawResponse where
  description : Option String
  content : Option (List (String × MediaObj))
deriving DecidableEq, Repr

/-- A raw operation.  `parameters`, `responses` and `tags` are already
collapsed through the source's `|| []` / `|| {}` defaults (a present
empty array or object is truthy in JavaScript and behaves identically
to the default). -/
structure RawOperation where
  operationId : Option String
  summary : Option String
  description : Option String
  parameters : List RawParameter
  requestBody : Option RawRequestBody
  responses : List (String × RawResponse)
  tags : List String
deriving DecidableEq, Repr

/-- A raw path item: the five HTTP methods the mapper probes. -/
structure RawPathItem where
  get : Option RawOperation
  post : Option RawOperation
  put : Option RawOperation
  delete : Option RawOperation
  patch : Option RawOperation
deriving DecidableEq, Repr

/-- A raw schema definition from `components.schemas` / `definitions`:
only the `properties` and `required` fields are read. -/
structure RawSchemaDef where
  properties : Option (List (String × SchemaNode))
  required : Option (List String)
deriving DecidableEq, Repr

/-- The dereferenced API document as consumed by `SwaggerMapper`.
`paths` is `none` when `'paths' in api && api.paths` is falsy;
`componentsSchemas` models `api.components?.schemas` (`none` when the
chain is absent or falsy); likewise `definitions`. -/
structure RawApi where
  paths : Option (List (String × Option RawPathItem))
  componentsSchemas : Option (List (String × RawSchemaDef))
  definitions : Option (List (String × RawSchemaDef))
deriving DecidableEq, Repr

/-! ## JavaScript `Map` / `Set` / association-list helpers -/

/-- First-occurrence lookup in an entry list (JavaScript property access
on an object with unique keys, or `Map.get`). -/
def mapLookup {α : Type} (m : List (String × α)) (k : String) : Option α :=
  match m with
  | [] => none
  | (k', v) :: rest => if k' = k then some v else mapLookup rest k

/-- `Map.has`. -/
def mapHas {α : Type} (m : List (String × α)) (k : String) : Bool :=
  (mapLookup m k).isSome

/-- `Map.set`: overwrite in place keeping the original position, or
append a new entry at the end. -/
def mapSet {α : Type} (m : List (String × α)) (k : String) (v : α) :
    List (String × α) :=
  match m with
  | [] => [(k, v)]
  | (k', v') :: rest => if k' = k then (k, v) :: rest else (k', v') :: mapSet rest k v

/-- `Set.add` on an insertion-ordered string set. -/
def setAdd (s : List String) (x : String) : List String :=
  if x ∈ s then s else s ++ [x]

/-- `moduleMap.get(tag)!.push(endpoint)` preceded by
`if (!moduleMap.has(tag)) moduleMap.set(tag, [])`: append the value to
the bucket of `k`, creating the bucket at the end if missing. -/
def mapPush (m : List (String × List EndpointMetadata)) (k : String)
    (v : EndpointMetadata) : List (String × List EndpointMetadata) :=
  match m with
  | [] => [(k, [v])]
  | (k', vs) :: rest =>
    if k' = k then (k', vs ++ [v]) :: rest else (k', vs) :: mapPush rest k v

/-! ## `SwaggerMapper` (`src/mapper/swagger-mapper.ts`) -/

/-- `schema.$ref.split('/').pop() || 'any'`. -/
def splitPop (s : String) : String :=
  orString ((splitChar '/' s.data).getLast?.map (fun l => (⟨l⟩ : String))) "any"

/-- `SwaggerMapper.getTypeFromSchema`: fixed primitive table (plus the
`$ref` shortcut); `typeMap[schema.type] || 'any'`. -/
def typeMapLookup : Option String → String
  | some "string" => "string"
  | some "number" => "number"
  | some "integer" => "number"
  | some "boolean" => "boolean"
  | some "array" => "any[]"
  | some "object" => "any"
  | _ => "any"

/-- `SwaggerMapper.getTypeFromSchema`. -/
def getTypeFromSchema : SchemaNode → String
  | .null => "any"
  | .obj ref ty _ =>
    if strTruthy ref then splitPop (ref.getD "") else typeMapLookup ty

/-- `SwaggerMapper.getSchemaName`: `$ref` first, then `array`-with-`items`
recursion, then fall through to `getTypeFromSchema`. -/
def getSchemaName : SchemaNode → String
  | .null => getTypeFromSchema .null
  | .obj ref ty items =>
    if strTruthy ref then splitPop (ref.getD "")
    else if ty = some "array" ∧ items ≠ SchemaNode.null then
      getSchemaName items ++ "[]"
    else getTypeFromSchema (.obj ref ty items)

/-- `SwaggerMapper.mapParameters`. -/
def mapParameters (parameters : List RawParameter) : List ParameterMetadata :=
  parameters.map (fun param =>
    { name := param.name
      paramIn := param.paramIn
      required := orFalse param.required
      type := getTypeFromSchema param.schema
      description := param.description })

/-- `SwaggerMapper.mapRequestBody`. -/
def mapRequestBody (requestBody : Option RawRequestBody) : Option RequestBodyMetadata :=
  match requestBody with
  | none => none
  | some rb =>
    let content := rb.content.getD []
    let contentType := orString ((content.map Prod.fst).head?) "application/json"
    let schema := (mapLookup content contentType).map MediaObj.schema
    some
      { required := orFalse rb.required
        contentType := contentType
        schema :=
          match schema with
          | some s => if s = SchemaNode.null then "any" else getSchemaName s
          | none => "any" }

/-- `SwaggerMapper.getResponseSchema`:
`response.content['application/json'] || response.content[Object.keys(content)[0]]`,
then `content?.schema`, resolved through `getSchemaName`. -/
def getResponseSchema (response : RawResponse) : Option String :=
  match response.content with
  | none => none
  | some entries =>
    match (mapLookup entries "application/json").orElse (fun _ => entries.head?.map Prod.snd) with
    | none => none
    | some media =>
      if media.schema = SchemaNode.null then none else some (getSchemaName media.schema)

/-- `SwaggerMapper.mapResponses` (entries in document order). -/
def mapResponses (responses : List (String × RawResponse)) : List ResponseMetadata :=
  responses.map (fun entry =>
    { statusCode := entry.1
      description := entry.2.description
      schema := getResponseSchema entry.2 })

/-- `SwaggerMapper.pathToFunctionName` segment tokenizer condition:
`segment.startsWith('{') && segment.endsWith('}')`. -/
def isParamSegment (seg : List Char) : Bool :=
  seg.head? == some '{' && seg.getLast? == some '}'

/-- One segment of `SwaggerMapper.pathToFunctionName`: a `\x7bx\x7d`
parameter segment becomes `By` + capitalised camel-case `x` (the source's
`slice(1, -1)` is `drop 1` + `dropLast`); a literal segment is
camel-cased. -/
def segmentToken (seg : List Char) : List Char :=
  if isParamSegment seg then
    'B' :: 'y' :: capitalizeChars (camelChars ((seg.drop 1).dropLast))
  else camelChars seg

/-- `SwaggerMapper.pathToFunctionName`: lower-cased method, then each
segment token capitalised and concatenated (`join('')`). -/
def pathToFunctionName (path method : String) : String :=
  ⟨(method.data.map Char.toLower) ++
    (((jsNonEmptySegments '/' path.data).map segmentToken).map capitalizeChars).flatten⟩

/-- `SwaggerMapper.tagToModuleName`: split on `/[\s-_]+/`, capitalise
each word, concatenate. -/
def tagToModuleName (tag : String) : String :=
  ⟨((splitRuns tagSepChar tag.data).map capitalizeChars).flatten⟩

/-- `SwaggerMapper.getTagFromPath`: capitalised first non-empty segment
with every brace removed (`replace(/[{}]/g, '')`), or `Default`. -/
def getTagFromPath (path : String) : String :=
  match jsNonEmptySegments '/' path.data with
  | [] => "Default"
  | first :: _ => ⟨capitalizeChars (first.filter (fun c => !(c == '{' || c == '}')))⟩

/-- `SwaggerMapper.mapEndpoint`. -/
def mapEndpoint (path method : String) (operation : RawOperation) : EndpointMetadata :=
  let functionName := pathToFunctionName path method
  { operationId := orString operation.operationId functionName
    functionName := functionName
    method := method
    path := path
    summary := operation.summary
    description := operation.description
    parameters := mapParameters operation.parameters
    requestBody := mapRequestBody operation.requestBody
    responses := mapResponses operation.responses
    tags := operation.tags }

/-- `SwaggerMapper.extractSchemas`: index `components.schemas`, then
`definitions`, into one `Map` (later entries overwrite by name).
`properties` defaults to `{}`; `required` is copied as-is (no default). -/
def extractSchemas (api : RawApi) : List (String × SchemaMetadata) :=
  let m :=
    match api.componentsSchemas with
    | none => []
    | some entries =>
      entries.foldl (fun m entry =>
        mapSet m entry.1
          { name := entry.1
            properties := entry.2.properties.getD []
            required := entry.2.required }) []
  match api.definitions with
  | none => m
  | some entries =>
    entries.foldl (fun m entry =>
      mapSet m entry.1
        { name := entry.1
          properties := entry.2.properties.getD []
          required := entry.2.required }) m

/-- `SwaggerMapper.getSchemasForModule` inner step for one resolved
schema-reference string: strip the FIRST occurrence of `[]`
(JavaScript `replace('[]', '')` with a string pattern replaces only the
first match), then add the name if it is in the catalog. -/
def removeFirstBrackets : List Char → List Char
  | [] => []
  | '[' :: ']' :: rest => rest
  | c :: rest => c :: removeFirstBrackets rest

/-- `schemaString.replace('[]', '')` on `String`. -/
def stripFirstBrackets (s : String) : String := ⟨removeFirstBrackets s.data⟩

/-- The conditional `Set.add` of `getSchemasForModule`. -/
def addSchemaName (schemas : List (String × SchemaMetadata)) (names : List String)
    (schemaRef : String) : List String :=
  let baseName := stripFirstBrackets schemaRef
  if mapHas schemas baseName then setAdd names baseName else names

/-- The per-response collection step of `getSchemasForModule`
(`if (response.schema) ...`). -/
def collectResponseName (schemas : List (String × SchemaMetadata))
    (names : List String) (response : ResponseMetadata) : List String :=
  match response.schema with
  | some s => if s ≠ "" then addSchemaName schemas names s else names
  | none => names

/-- The request-body collection step of `getSchemasForModule`
(`if (endpoint.requestBody?.schema) ...`). -/
def collectRequestName (schemas : List (String × SchemaMetadata))
    (names : List String) (rb : Option RequestBodyMetadata) : List String :=
  match rb with
  | some rb => if rb.schema ≠ "" then addSchemaName schemas names rb.schema else names
  | none => names

/-- The per-endpoint collection step of `getSchemasForModule`: the
request-body reference, then every response reference. -/
def collectNames (schemas : List (String × SchemaMetadata))
    (names : List String) (endpoint : EndpointMetadata) : List String :=
  endpoint.responses.foldl (collectResponseName schemas)
    (collectRequestName schemas names endpoint.requestBody)

/-- `SwaggerMapper.getSchemasForModule`: collect base names referenced by
request bodies and responses (skipping falsy references), keep the ones
present in the catalog, and fetch their records.  The final `getD` is
unreachable: every collected name passed the `Map.has` check (the source
uses a non-null assertion there). -/
def getSchemasForModule (schemas : List (String × SchemaMetadata))
    (endpoints : List EndpointMetadata) : List SchemaMetadata :=
  let schemaNames := endpoints.foldl (collectNames schemas) []
  schemaNames.map (fun name =>
    (mapLookup schemas name).getD { name := name, properties := [], required := none })

/-- The fixed method-probe order of `mapToModules`. -/
def httpMethods : List String := ["get", "post", "put", "delete", "patch"]

/-- Field access `pathItem[method]` for the five probed methods. -/
def pathItemMethod (item : RawPathItem) : String → Option RawOperation
  | "get" => item.get
  | "post" => item.post
  | "put" => item.put
  | "delete" => item.delete
  | "patch" => item.patch
  | _ => none

/-- The per-tag body of `mapToModules`:
`if (selectedTags && !selectedTags.includes(tag)) return;` then push.
A present-but-empty `selectedTags` array is truthy in JavaScript, so it
filters everything out. -/
def pushEndpoint (selectedTags : Option (List String))
    (acc : List (String × List EndpointMetadata)) (tag : String)
    (ep : EndpointMetadata) : List (String × List EndpointMetadata) :=
  match selectedTags with
  | some selected => if tag ∈ selected then mapPush acc tag ep else acc
  | none => mapPush acc tag ep

/-- `tags.forEach(tag => ...)` of `mapToModules`. -/
def groupTags (selectedTags : Option (List String)) (tags : List String)
    (ep : EndpointMetadata) (acc : List (String × List EndpointMetadata)) :
    List (String × List EndpointMetadata) :=
  tags.foldl (fun acc tag => pushEndpoint selectedTags acc tag ep) acc

/-- The per-method body of `mapToModules`: skip missing operations, map
the endpoint (with the upper-cased method), determine its effective tags
(declared tags, else the tag inferred from the path), and distribute it. -/
def methodStep (selectedTags : Option (List String)) (path : String)
    (item : RawPathItem) (acc : List (String × List EndpointMetadata))
    (method : String) : List (String × List EndpointMetadata) :=
  match pathItemMethod item method with
  | none => acc
  | some operation =>
    let endpoint := mapEndpoint path (jsToUpper method) operation
    let tags := if endpoint.tags.length > 0 then endpoint.tags else [getTagFromPath path]
    groupTags selectedTags tags endpoint acc

/-- `['get', 'post', 'put', 'delete', 'patch'].forEach(...)`. -/
def groupMethods (selectedTags : Option (List String)) (path : String)
    (item : RawPathItem) (acc : List (String × List EndpointMetadata)) :
    List (String × List EndpointMetadata) :=
  httpMethods.foldl (methodStep selectedTags path item) acc

/-- The per-path body of `mapToModules` (`if (!pathItem) return;`). -/
def pathStep (selectedTags : Option (List String))
    (acc : List (String × List EndpointMetadata))
    (entry : String × Option RawPathItem) : List (String × List EndpointMetadata) :=
  match entry.2 with
  | none => acc
  | some item => groupMethods selectedTags entry.1 item acc

/-- `Object.entries(api.paths).forEach(...)`. -/
def groupPaths (selectedTags : Option (List String))
    (paths : List (String × Option RawPathItem))
    (acc : List (String × List EndpointMetadata)) :
    List (String × List EndpointMetadata) :=
  paths.foldl (pathStep selectedTags) acc

/-- The final per-bucket module construction of `mapToModules`. -/
def moduleOfEntry (schemas : List (String × SchemaMetadata))
    (entry : String × List EndpointMetadata) : ModuleMetadata :=
  { moduleName := tagToModuleName entry.1
    tag := entry.1
    endpoints := entry.2
    schemas := getSchemasForModule schemas entry.2 }

/-- `SwaggerMapper.mapToModules`. -/
def mapToModules (api : RawApi) (selectedTags : Option (List String)) :
    List ModuleMetadata :=
  let schemas := extractSchemas api
  let moduleMap :=
    match api.paths with
    | none => []
    | some paths => groupPaths selectedTags paths []
  moduleMap.map (moduleOfEntry schemas)

/-- `SwaggerMapper.getSchemas` returns the catalog built by
`extractSchemas` (handed to the generator as `context.schemas`). -/
def getSchemas (api : RawApi) : List (String × SchemaMetadata) := extractSchemas api

/-! ## `CodeGenerator` (`src/generator/code-generator.ts`) -/

/-- `CodeGenerator.getTypeScriptType` (also registered as the
`getTypeScriptType` Handlebars helper): arrays recurse on `items`
(defaulting to `any`), then `typeMap[property.type] || 'any'`.
Unlike the mapper's resolvers it has no `$ref` case. -/
def getTypeScriptType : SchemaNode → String
  | .null => "any"
  | .obj _ ty items =>
    if ty = some "array" then
      (match items with
       | .null => "any"
       | i => getTypeScriptType i) ++ "[]"
    else typeMapLookup ty

/-- `schema.required?.includes(propName)` coerced to a boolean: an absent
`required` is falsy. -/
def requiredIncludes (required : Option (List String)) (propName : String) : Bool :=
  match required with
  | some l => propName ∈ l
  | none => false

/-- One property line of `CodeGenerator.generateTypesFile`:
`  name?: type;` with `?` present exactly when
`schema.required?.includes(propName)` is falsy. -/
def propertyLine (required : Option (List String)) (propName : String)
    (propValue : SchemaNode) : String :=
  "  " ++ propName ++ (if requiredIncludes required propName then "" else "?") ++
    ": " ++ getTypeScriptType propValue ++ ";\n"

/-- One `export interface` block of `CodeGenerator.generateTypesFile`. -/
def interfaceDecl (name : String) (schema : SchemaMetadata) : String :=
  "export interface " ++ name ++ " \x7b\n" ++
    String.join (schema.properties.map (fun p => propertyLine schema.required p.1 p.2)) ++
    "\x7d\n\n"

/-- The interface blocks emitted by `CodeGenerator.generateTypesFile`,
one per entry of the `schemas` map, in map order. -/
def typesFileDecls (schemas : List (String × SchemaMetadata)) : List String :=
  schemas.map (fun p => interfaceDecl p.1 p.2)

/-- The full text accumulated by `CodeGenerator.generateTypesFile`
before Prettier formatting and file output. -/
def generateTypesFileContent (schemas : List (String × SchemaMetadata)) : String :=
  "// Auto-generated type definitions\n\n" ++ String.join (typesFileDecls schemas)

/-! ## `TemplateEngine` (`src/generator/template-engine.ts`) -/

/-- The library choices of `src/types.ts`
(`'zustand' | 'redux-toolkit' | 'axios-hooks' | 'fetch-api'`). -/
inductive LibraryChoice where
  | zustand
  | reduxToolkit
  | axiosHooks
  | fetchApi
deriving DecidableEq, Repr

/-- The string value of a library choice. -/
def libraryName : LibraryChoice → String
  | .zustand => "zustand"
  | .reduxToolkit => "redux-toolkit"
  | .axiosHooks => "axios-hooks"
  | .fetchApi => "fetch-api"

/-- `this.templates.get(library)` on the engine's template map.  The
compiled Handlebars templates themselves are opaque data loaded from
`.hbs` files, so the value type is a parameter. -/
def lookupLib {T : Type} (templates : List (LibraryChoice × T)) (lib : LibraryChoice) :
    Option T :=
  match templates with
  | [] => none
  | (l, t) :: rest => if l = lib then some t else lookupLib rest lib

/-- The map built by `TemplateEngine.loadTemplates`: one compiled
template per supported library, registered for the four keys
`zustand`, `redux-toolkit`, `axios-hooks`, `fetch-api` (in the entry
order of its `templateFiles` record). -/
def loadedTemplates {T : Type} (zustandT reduxT axiosT fetchT : T) :
    List (LibraryChoice × T) :=
  [(.zustand, zustandT), (.reduxToolkit, reduxT), (.axiosHooks, axiosT), (.fetchApi, fetchT)]

/-- `TemplateEngine.generateModule`: look up the template for the chosen
library, throw `Template not found for library: ...` when it is missing
(a compiled template function is always truthy), render, and apply the
JavaScript downgrade when `language === 'javascript'`.  `render` models
the opaque compiled template and `convertJs` the
`convertToJavaScript` text transformation. -/
def generateModule {T O : Type} (render : T → ModuleMetadata → O) (convertJs : O → O)
    (templates : List (LibraryChoice × T)) (module : ModuleMetadata)
    (library : LibraryChoice) (language : String) : Except String O :=
  match lookupLib templates library with
  | none => .error ("Template not found for library: " ++ libraryName library)
  | some t =>
    let code := render t module
    if language = "javascript" then .ok (convertJs code) else .ok code

/-! ## Spec-side definitions

These definitions transcribe the wording of the specification (not the
source); the theorems below compare them with the source embeddings. -/

/-- Spec §4.3, one path token: for a parameter segment `\x7bx\x7d` the
token `By` followed by the capitalised camel-case form of `x`; for a
literal segment its capitalised camel-case form. -/
def specToken (seg : List Char) : List Char :=
  if isParamSegment seg then
    'B' :: 'y' :: capitalizeChars (camelChars ((seg.drop 1).dropLast))
  else capitalizeChars (camelChars seg)

/-- Spec §4.3 call-name formula: lower-cased HTTP method concatenated
with the tokens of the non-empty `/`-separated segments in declaration
order. -/
def specCallName (method path : String) : String :=
  ⟨(method.data.map Char.toLower) ++
    ((jsNonEmptySegments '/' path.data).map specToken).flatten⟩

/-- Spec §4.4 inferred tag: the capitalised first non-empty path segment
with braces stripped, or `Default` when the path has no segments. -/
def specInferredTag (path : String) : String :=
  ((jsNonEmptySegments '/' path.data).head?.map
    (fun s => (⟨capitalizeChars (s.filter (fun c => !(c == '{' || c == '}')))⟩ : String))).getD
    "Default"

/-- Spec-side interface block: one declaration per schema; a property is
marked optional (with `?`) exactly when its name is not a member of the
schema's required set (an absent `required` is the empty set). -/
def specInterfaceDecl (name : String) (schema : SchemaMetadata) : String :=
  "export interface " ++ name ++ " \x7b\n" ++
    String.join (schema.properties.map (fun p =>
      "  " ++ p.1 ++ (if p.1 ∈ schema.required.getD [] then "" else "?") ++
        ": " ++ getTypeScriptType p.2 ++ ";\n")) ++
    "\x7d\n\n"

/-- Spec-side base name of a resolved type reference: the name with ALL
trailing array suffixes stripped (`T[][]` ↦ `T`). -/
def dropArraySuffixes : List Char → List Char
  | ']' :: '[' :: rest => dropArraySuffixes rest
  | l => l

/-- Spec-side array-suffix strip on `String`. -/
def stripArraySuffixes (s : String) : String :=
  ⟨(dropArraySuffixes s.data.reverse).reverse⟩

/-- The stripped name emitted for one response record, if any. -/
def responseRefName (r : ResponseMetadata) : Option String :=
  match r.schema with
  | some s => if s ≠ "" then some (stripFirstBrackets s) else none
  | none => none

/-- The stripped name emitted for a request body, if any. -/
def requestRefNames (rb : Option RequestBodyMetadata) : List String :=
  match rb with
  | some rb => if rb.schema ≠ "" then [stripFirstBrackets rb.schema] else []
  | none => []

/-- The resolved request-body/response schema-reference strings of a list
of endpoints, in the order `getSchemasForModule` visits them, with the
source's first-`[]` strip applied and falsy references skipped. -/
def strippedRefNames (endpoints : List EndpointMetadata) : List String :=
  endpoints.flatMap (fun ep =>
    requestRefNames ep.requestBody ++ ep.responses.filterMap responseRefName)

/-- First-occurrence deduplication (the insertion order of a JavaScript
`Set`). -/
def dedupFirst (l : List String) : List String := l.foldl setAdd []

/-- Lower-case ASCII letters. -/
def lowerAsciiChars : List Char := (List.range 26).map (fun i => Char.ofNat (97 + i))

/-- Upper-case ASCII letters. -/
def upperAsciiChars : List Char := (List.range 26).map (fun i => Char.ofNat (65 + i))

/-- ASCII digits. -/
def digitAsciiChars : List Char := (List.range 10).map (fun i => Char.ofNat (48 + i))

/-- Characters allowed at the start of a JavaScript identifier
(ASCII fragment). -/
def identStartChars : List Char := lowerAsciiChars ++ upperAsciiChars ++ ['_', '$']

/-- Characters allowed in the body of a JavaScript identifier
(ASCII fragment). -/
def identChars : List Char := identStartChars ++ digitAsciiChars

/-- A character list is identifier-safe when it is non-empty, starts
with an identifier-start character and continues with identifier
characters. -/
def isIdentListSafe : List Char → Bool
  | [] => false
  | c :: cs => decide (c ∈ identStartChars) && cs.all (fun d => decide (d ∈ identChars))

/-- A string is identifier-safe when its character list is. -/
def isIdentifierSafe (s : String) : Bool := isIdentListSafe s.data

/-- Sufficient condition for `camelChars` to produce only identifier
characters: every character is an identifier character, except that a
hyphen or underscore may appear when immediately followed by an
identifier character (the pair is then consumed by the camel-case
rewrite). -/
def camelSafe : List Char → Bool
  | [] => true
  | [c] => decide (c ∈ identChars)
  | c :: d :: rest =>
    if (c = '-' ∨ c = '_') ∧ d ≠ '\n' then decide (d ∈ identChars) && camelSafe rest
    else decide (c ∈ identChars) && camelSafe (d :: rest)

/-- A path segment is well-formed for identifier generation when it is a
braced parameter whose inner name is `camelSafe`, or a literal segment
that is `camelSafe`. -/
def segWf (seg : List Char) : Bool :=
  if isParamSegment seg then camelSafe ((seg.drop 1).dropLast) else camelSafe seg

/-! ## Concrete documents and nodes used by witnesses and counterexamples -/

/-- A response whose schema is a reference to `User`. -/
def sampleUserMedia : MediaObj :=
  { schema := SchemaNode.obj (some "#/components/schemas/User") none .null }

/-- A `GET` operation with a single `200` response referencing `User`. -/
def sampleOperation : RawOperation :=
  { operationId := none, summary := none, description := none, parameters := [],
    requestBody := none,
    responses := [("200", { description := some "ok",
                            content := some [("application/json", sampleUserMedia)] })],
    tags := [] }

/-- A path item exposing only the `GET` operation. -/
def samplePathItem : RawPathItem :=
  { get := some sampleOperation, post := none, put := none, delete := none, patch := none }

/-- A small document: one path `/users` with a `GET` operation and one
schema `User`. -/
def sampleApi : RawApi :=
  { paths := some [("/users", some samplePathItem)]
    componentsSchemas := some [("User",
      { properties := some [("id", SchemaNode.obj none (some "string") .null)],
        required := none })]
    definitions := none }

/-- An `array` node whose `items` is a reference to schema `T` (no own
`$ref`). -/
def arrayOfRefNode : SchemaNode :=
  .obj none (some "array") (.obj (some "#/components/schemas/T") none .null)

/-- A plain reference node to schema `User`. -/
def refUserNode : SchemaNode := .obj (some "#/components/schemas/User") none .null

/-- A node carrying both a truthy `$ref` and `type: array` with `items`. -/
def refAndArrayNode : SchemaNode :=
  .obj (some "#/components/schemas/User") (some "array")
    (.obj (some "#/components/schemas/T") none .null)

/-- An array of arrays of references to `T`. -/
def nestedArrayNode : SchemaNode :=
  .obj none (some "array") (.obj none (some "array")
    (.obj (some "#/components/schemas/T") none .null))

/-- A catalog containing the single schema `T`. -/
def catalogT : List (String × SchemaMetadata) :=
  [("T", { name := "T", properties := [], required := none })]

/-- An endpoint whose only schema reference is the nested-array name
`T[][]`. -/
def nestedRefEndpoint : EndpointMetadata :=
  { operationId := "getX", functionName := "getX", method := "GET", path := "/x",
    summary := none, description := none, parameters := [], requestBody := none,
    responses := [{ statusCode := "200", description := none, schema := some "T[][]" }],
    tags := [] }

/-- A document whose `components.schemas` entry `T` has neither
`properties` nor `required`. -/
def apiNoRequired : RawApi :=
  { paths := none,
    componentsSchemas := some [("T", { properties := none, required := none })],
    definitions := none }

/-- A document with an empty `paths` object and one schema that no
endpoint references. -/
def apiUnreferenced : RawApi :=
  { paths := some [],
    componentsSchemas := some [("Unused", { properties := none, required := none })],
    definitions := none }

/-! ## Proof-side auxiliary definitions -/

/-- Keep the entries of a bucket map whose key is in `F`. -/
def filterKeys {α : Type} (F : List String) (m : List (String × α)) :
    List (String × α) :=
  m.filter (fun p => decide (p.1 ∈ F))

/-- The name-collection step of `getSchemasForModule` on an
already-stripped name. -/
def filtStep (schemas : List (String × SchemaMetadata)) (names : List String)
    (n : String) : List String :=
  if mapHas schemas n then setAdd names n else names

/-! ## General helper lemmas -/

theorem mk_cons_ne_empty (c : Char) (l : List Char) : (⟨c :: l⟩ : String) ≠ "" := by
  intro h
  exact List.cons_ne_nil c l (congrArg String.data h)

theorem splitChar_ne_nil (sep : Char) (l : List Char) : splitChar sep l ≠ [] := by
  induction l with
  | nil => simp [splitChar]
  | cons c cs ih =>
    rcases h : splitChar sep cs with _ | ⟨g, gs⟩
    · exact absurd h ih
    · by_cases hc : c = sep <;> simp [splitChar, h, hc]

theorem splitChar_no_sep (sep : Char) (l : List Char) (h : sep ∉ l) :
    splitChar sep l = [l] := by
  induction l with
  | nil => rfl
  | cons c cs ih =>
    have hc : c ≠ sep := fun hcs => h (hcs ▸ List.mem_cons_self c cs)
    have hcs : sep ∉ cs := fun hm => h (List.mem_cons_of_mem c hm)
    rw [splitChar, ih hcs]
    simp [hc]

theorem splitChar_append_sep (sep : Char) (x y : List Char) :
    splitChar sep (x ++ sep :: y) = splitChar sep x ++ splitChar sep y := by
  induction x with
  | nil =>
    rcases h : splitChar sep y with _ | ⟨g, gs⟩
    · exact absurd h (splitChar_ne_nil sep y)
    · simp [splitChar, h]
  | cons c x ih =>
    rcases hx : splitChar sep x with _ | ⟨g, gs⟩
    · exact absurd hx (splitChar_ne_nil sep x)
    · by_cases hc : c = sep <;>
        simp [splitChar, List.cons_append, ih, hx, hc]

theorem capitalize_segmentToken (seg : List Char) :
    capitalizeChars (segmentToken seg) = specToken seg := by
  unfold segmentToken specToken
  by_cases hp : isParamSegment seg
  · rw [if_pos hp, if_pos hp]
    show Char.toUpper 'B' :: _ = _
    norm_num [show Char.toUpper 'B' = 'B' from by decide]
  · rw [if_neg hp, if_neg hp]

/-- C1: for every HTTP method in GET/POST/PUT/DELETE/PATCH and every
path template, `pathToFunctionName` produces exactly the lower-cased
method followed by, for each non-empty `/`-separated segment in order,
`By` plus the capitalised camel-case parameter name for a braced
segment and the capitalised camel-case form for a literal segment; in
particular `GET /order-history/\x7bid\x7d` yields
`getOrderHistoryById`. -/
theorem c1_call_name :
    (∀ method path : String,
      method ∈ ["GET", "POST", "PUT", "DELETE", "PATCH"] →
      pathToFunctionName path method = specCallName method path) ∧
    pathToFunctionName "/order-history/{id}" "GET" = "getOrderHistoryById" := by
  constructor
  · intro method path _
    unfold pathToFunctionName specCallName
    apply congrArg String.mk
    apply congrArg (method.data.map Char.toLower ++ ·)
    apply congrArg List.flatten
    rw [List.map_map]
    exact List.map_congr_left (fun seg _ => capitalize_segmentToken seg)
  · decide

theorem c1_call_name_witness :
    ("GET" : String) ∈ ["GET", "POST", "PUT", "DELETE", "PATCH"] ∧
    pathToFunctionName "/users/{user_id}" "GET" = specCallName "GET" "/users/{user_id}" :=
  ⟨by decide, c1_call_name.1 "GET" "/users/{user_id}" (by decide)⟩

theorem splitPop_no_sep (s : String) (hs : s ≠ "") (hsl : ('/' : Char) ∉ s.data) :
    splitPop s = s := by
  unfold splitPop
  rw [splitChar_no_sep '/' s.data hsl]
  simp [orString, hs]

theorem data_append_slash (pre last : String) :
    (pre ++ "/" ++ last).data = pre.data ++ '/' :: last.data := by
  simp [String.data_append]

theorem append_slash_ne_empty (pre last : String) : pre ++ "/" ++ last ≠ "" := by
  intro h
  have hd := congrArg String.data h
  rw [data_append_slash] at hd
  simp at hd

theorem splitPop_append (pre last : String) (hl : last ≠ "")
    (hsl : ('/' : Char) ∉ last.data) : splitPop (pre ++ "/" ++ last) = last := by
  unfold splitPop
  rw [data_append_slash, splitChar_append_sep, splitChar_no_sep '/' last.data hsl,
    List.getLast?_concat]
  show orString (some ⟨last.data⟩) "any" = last
  simp [orString, hl]

/-- C5 (amended): for a reference node, resolution returns the final
`/`-separated segment of the reference target — for any prefix, i.e. at
any nesting depth — provided that segment is non-empty (a reference
ending in `/` degrades to `any`), and returns the whole target when it
has no `/` at all; for a node with `type: array` and an `items` node
WITHOUT a truthy `$ref` of its own, resolution is the items resolution
with `[]` appended (a truthy `$ref` takes precedence over the array
rule); an array of arrays of references to `T` resolves to `T[][]`. -/
theorem c5_type_resolution_rules :
    (∀ (pre last : String) (ty : Option String) (items : SchemaNode),
      last ≠ "" → ('/' : Char) ∉ last.data →
      getSchemaName (.obj (some (pre ++ "/" ++ last)) ty items) = last) ∧
    (∀ (r : String) (ty : Option String) (items : SchemaNode),
      r ≠ "" → ('/' : Char) ∉ r.data →
      getSchemaName (.obj (some r) ty items) = r) ∧
    (∀ (ref : Option String) (items : SchemaNode),
      strTruthy ref = false → items ≠ SchemaNode.null →
      getSchemaName (.obj ref (some "array") items) = getSchemaName items ++ "[]") ∧
    getSchemaName nestedArrayNode = "T[][]" := by
  refine ⟨?_, ?_, ?_, by decide⟩
  · intro pre last ty items hl hsl
    rw [getSchemaName, if_pos (by simp [strTruthy, append_slash_ne_empty pre last])]
    exact splitPop_append pre last hl hsl
  · intro r ty items hr hsl
    rw [getSchemaName, if_pos (by simp [strTruthy, hr])]
    exact splitPop_no_sep r hr hsl
  · intro ref items href hitems
    rw [getSchemaName, if_neg (by simp [href]), if_pos ⟨rfl, hitems⟩]

theorem c5_type_resolution_rules_witness :
    ("User" : String) ≠ "" ∧ ('/' : Char) ∉ ("User" : String).data ∧
    getSchemaName (.obj (some ("#/components/schemas" ++ "/" ++ "User")) none .null) = "User" :=
  ⟨by decide, by decide,
    c5_type_resolution_rules.1 "#/components/schemas" "User" none .null (by decide) (by decide)⟩

/-- C5 counterexample: a node carrying both a truthy `$ref` and
`type: array` with an `items` node resolves through the `$ref` rule
(`User`), not — as the claim's array clause requires for every node
declaring `type: array` with items — to the items resolution plus `[]`
(`T[]`). -/
theorem c5_counterexample :
    getSchemaName refAndArrayNode = "User" ∧
    getSchemaName (.obj (some "#/components/schemas/T") none .null) ++ "[]" = "T[]" ∧
    ("User" : String) ≠ "T[]" := by decide

/-- C3 (amended): the request-body position and the response position
both resolve a schema node through `getSchemaName`, so they always
agree; the endpoint-parameter position resolves through
`getTypeFromSchema` instead, which agrees with `getSchemaName` exactly
when the node has a truthy `$ref` or is not an `array`-with-`items`
node; in particular an array-of-reference node resolves to `T[]` in the
request/response positions but to `any[]` as a parameter type.
(`⟨none, some [("application/json", ⟨n⟩)]⟩` is a request body / response
whose single `application/json` media object carries schema `n`;
`⟨"p", "query", none, n, none⟩` is a parameter with schema `n`.) -/
theorem c3_resolution_positions :
    (∀ n : SchemaNode, n ≠ SchemaNode.null →
      (mapRequestBody (some ⟨none, some [("application/json", ⟨n⟩)]⟩)).map
        RequestBodyMetadata.schema = some (getSchemaName n) ∧
      getResponseSchema ⟨none, some [("application/json", ⟨n⟩)]⟩ =
        some (getSchemaName n) ∧
      (mapParameters [⟨"p", "query", none, n, none⟩]).map ParameterMetadata.type =
        [getTypeFromSchema n]) ∧
    (∀ (ref ty : Option String) (items : SchemaNode),
      strTruthy ref = true ∨ ¬(ty = some "array" ∧ items ≠ SchemaNode.null) →
      getSchemaName (.obj ref ty items) = getTypeFromSchema (.obj ref ty items)) := by
  constructor
  · intro n hn
    refine ⟨?_, ?_, by rfl⟩
    · simp [mapRequestBody, mapLookup, orString, hn]
    · simp [getResponseSchema, mapLookup, Option.orElse, hn]
  · intro ref ty items h
    by_cases href : strTruthy ref
    · rw [getSchemaName, getTypeFromSchema, if_pos href, if_pos href]
    · rcases h with h | h
      · exact absurd h href
      · rw [getSchemaName, if_neg (by simp [href]), if_neg h, getTypeFromSchema]

theorem c3_resolution_positions_witness :
    refUserNode ≠ SchemaNode.null ∧
    ((mapRequestBody (some ⟨none, some [("application/json", ⟨refUserNode⟩)]⟩)).map
      RequestBodyMetadata.schema = some (getSchemaName refUserNode) ∧
     getResponseSchema ⟨none, some [("application/json", ⟨refUserNode⟩)]⟩ =
      some (getSchemaName refUserNode) ∧
     (mapParameters [⟨"p", "query", none, refUserNode, none⟩]).map ParameterMetadata.type =
      [getTypeFromSchema refUserNode]) :=
  ⟨by decide, c3_resolution_positions.1 refUserNode (by decide)⟩

/-- C3 counterexample: the node `arrayOfRefNode` (`type: array`, `items`
a reference to `T`) resolves to `any[]` as an endpoint-parameter type
but to `T[]` as a request-body schema reference, so type naming is NOT
identical across the three positions. -/
theorem c3_counterexample :
    (mapParameters [⟨"p", "query", none, arrayOfRefNode, none⟩]).map
      ParameterMetadata.type = ["any[]"] ∧
    (mapRequestBody (some ⟨none, some [("application/json", ⟨arrayOfRefNode⟩)]⟩)).map
      RequestBodyMetadata.schema = some "T[]" ∧
    ("any[]" : String) ≠ "T[]" := by decide

/-- C7 (amended): a document with neither `components.schemas` nor
`definitions` yields an empty catalog and indexing never fails; a raw
definition with no `properties` gets the empty mapping, but a missing
`required` field is left ABSENT on the resulting record (it is not
replaced by an empty list); every consumer treats the absent `required`
as the empty set (`requiredIncludes none` is constantly false). -/
theorem c7_catalog_defaults :
    (∀ api : RawApi, api.componentsSchemas = none → api.definitions = none →
      extractSchemas api = []) ∧
    (∀ (name : String) (d : RawSchemaDef), d.properties = none → d.required = none →
      extractSchemas ⟨none, some [(name, d)], none⟩ =
        [(name, ⟨name, [], none⟩)]) ∧
    (∀ p : String, requiredIncludes none p = false) := by
  refine ⟨?_, ?_, fun p => rfl⟩
  · intro api h1 h2
    unfold extractSchemas
    rw [h1, h2]
  · intro name d h1 h2
    unfold extractSchemas
    simp [mapSet, h1, h2]

theorem c7_catalog_defaults_witness :
    extractSchemas ⟨none, none, none⟩ = [] ∧
    extractSchemas ⟨none, some [("X", ⟨none, none⟩)], none⟩ =
      [("X", ⟨"X", [], none⟩)] ∧
    requiredIncludes none "X" = false :=
  ⟨c7_catalog_defaults.1 ⟨none, none, none⟩ rfl rfl,
   c7_catalog_defaults.2.1 "X" ⟨none, none⟩ rfl rfl,
   c7_catalog_defaults.2.2 "X"⟩

/-- C7 counterexample: indexing a definition with no `required` field
stores `none` (JavaScript `undefined`) in the record's `required`
field, not the empty set `some []` the claim asserts. -/
theorem c7_counterexample :
    (mapLookup (extractSchemas apiNoRequired) "T").map SchemaMetadata.required =
      some none ∧
    (some (none : Option (List String)) ≠ some (some ([] : List String))) := by decide

theorem requiredIncludes_eq_mem (r : Option (List String)) (n : String) :
    (if requiredIncludes r n then "" else "?") =
      (if n ∈ r.getD [] then "" else "?") := by
  cases r <;> simp [requiredIncludes]

theorem interfaceDecl_eq_spec (name : String) (schema : SchemaMetadata) :
    interfaceDecl name schema = specInterfaceDecl name schema := by
  unfold interfaceDecl specInterfaceDecl propertyLine
  apply congrArg (fun t => "export interface " ++ name ++ " \x7b\n" ++ t ++ "\x7d\n\n")
  apply congrArg String.join
  exact List.map_congr_left (fun p _ => by rw [requiredIncludes_eq_mem])

/-- C4 (amended): the TypeScript types file contains exactly one
`export interface` declaration per entry of the WHOLE schema catalog
(`getSchemas`), not only per record reachable from the generated
modules' request/response references; within each declaration a
property is marked optional (`?`) if and only if its name is not listed
in that schema's required set (an absent `required` counts as empty). -/
theorem c4_types_file :
    ∀ schemas : List (String × SchemaMetadata),
      (typesFileDecls schemas).length = schemas.length ∧
      generateTypesFileContent schemas =
        "// Auto-generated type definitions\n\n" ++
          String.join (schemas.map (fun p => specInterfaceDecl p.1 p.2)) := by
  intro schemas
  refine ⟨by simp [typesFileDecls], ?_⟩
  unfold generateTypesFileContent typesFileDecls
  apply congrArg (fun t => "// Auto-generated type definitions\n\n" ++ t)
  apply congrArg String.join
  exact List.map_congr_left (fun p _ => interfaceDecl_eq_spec p.1 p.2)

/-- C4 counterexample: `apiUnreferenced` produces no modules (so no
schema record is reachable from any module), yet its types file
contains one declaration — the file is emitted per catalog entry, not
per reachable record. -/
theorem c4_counterexample :
    mapToModules apiUnreferenced none = [] ∧
    (typesFileDecls (getSchemas apiUnreferenced)).length = 1 := by decide

theorem foldl_collectResponseName (schemas : List (String × SchemaMetadata)) :
    ∀ (rs : List ResponseMetadata) (acc : List String),
      rs.foldl (collectResponseName schemas) acc =
        (rs.filterMap responseRefName).foldl (filtStep schemas) acc := by
  intro rs
  induction rs with
  | nil => intro acc; rfl
  | cons r rs ih =>
    intro acc
    rcases hs : r.schema with _ | s
    · simp [List.foldl_cons, List.filterMap_cons, collectResponseName, responseRefName, hs, ih]
    · by_cases hse : s = "" <;>
        simp [List.foldl_cons, List.filterMap_cons, collectResponseName, responseRefName,
          hs, hse, ih, addSchemaName, filtStep]

theorem collectRequestName_eq (schemas : List (String × SchemaMetadata))
    (acc : List String) (rb : Option RequestBodyMetadata) :
    collectRequestName schemas acc rb = (requestRefNames rb).foldl (filtStep schemas) acc := by
  rcases rb with _ | rb
  · rfl
  · by_cases hbs : rb.schema = "" <;>
      simp [collectRequestName, requestRefNames, hbs, addSchemaName, filtStep]

theorem foldl_collectNames (schemas : List (String × SchemaMetadata)) :
    ∀ (eps : List EndpointMetadata) (acc : List String),
      eps.foldl (collectNames schemas) acc =
        (strippedRefNames eps).foldl (filtStep schemas) acc := by
  intro eps
  induction eps with
  | nil => intro acc; rfl
  | cons ep eps ih =>
    intro acc
    have hs : strippedRefNames (ep :: eps) =
        (requestRefNames ep.requestBody ++ ep.responses.filterMap responseRefName) ++
          strippedRefNames eps := rfl
    rw [List.foldl_cons, ih, hs, List.foldl_append, List.foldl_append]
    congr 1
    rw [collectNames, foldl_collectResponseName]
    congr 1
    exact collectRequestName_eq schemas acc ep.requestBody

theorem foldl_filtStep_filter (schemas : List (String × SchemaMetadata)) :
    ∀ (l : List String) (acc : List String),
      l.foldl (filtStep schemas) acc =
        (l.filter (fun n => mapHas schemas n)).foldl setAdd acc := by
  intro l
  induction l with
  | nil => intro acc; rfl
  | cons n l ih =>
    intro acc
    by_cases hn : mapHas schemas n <;>
      simp [List.foldl_cons, List.filter_cons, filtStep, hn, ih]

/-- C6 (amended): a module's `referencedSchemas` is exactly the catalog
records for the distinct names, in first-reference order, obtained from
the endpoints' request-body/response references by removing only the
FIRST `[]` occurrence (`replace('[]', '')` with a string pattern) and
keeping the names present in the catalog; names that miss the catalog —
including the leftover `T[]` of a nested `T[][]` reference — are
silently omitted and never cause an error. -/
theorem c6_referenced_schemas :
    ∀ (schemas : List (String × SchemaMetadata)) (endpoints : List EndpointMetadata),
      getSchemasForModule schemas endpoints =
        (dedupFirst ((strippedRefNames endpoints).filter (fun n => mapHas schemas n))).map
          (fun name => (mapLookup schemas name).getD ⟨name, [], none⟩) := by
  intro schemas endpoints
  unfold getSchemasForModule dedupFirst
  rw [foldl_collectNames, foldl_filtStep_filter]

/-- C6 counterexample: the nested reference `T[][]` strips to `T[]`
(only the first `[]` is removed), which is not in the catalog, so the
module's schema list is empty even though the base name `T` (all array
suffixes stripped, as the claim reads it) is in the catalog. -/
theorem c6_counterexample :
    stripFirstBrackets "T[][]" = "T[]" ∧
    stripArraySuffixes "T[][]" = "T" ∧
    mapHas catalogT "T" = true ∧
    getSchemasForModule catalogT [nestedRefEndpoint] = [] := by decide

theorem mapPush_filterKeys_mem (F : List String) (t : String) (e : EndpointMetadata)
    (ht : t ∈ F) :
    ∀ m, mapPush (filterKeys F m) t e = filterKeys F (mapPush m t e) := by
  intro m
  induction m with
  | nil => simp [mapPush, filterKeys, ht]
  | cons p rest ih =>
    obtain ⟨k, vs⟩ := p
    by_cases hk : k ∈ F
    · by_cases hkt : k = t
      · subst hkt
        simp [mapPush, filterKeys, List.filter_cons, hk]
      · simp [mapPush, filterKeys, List.filter_cons, hk, hkt] at ih ⊢
        exact ih
    · have hkt : k ≠ t := fun h => hk (h ▸ ht)
      simp [mapPush, filterKeys, List.filter_cons, hk, hkt] at ih ⊢
      exact ih

theorem filterKeys_mapPush_not_mem (F : List String) (t : String) (e : EndpointMetadata)
    (ht : t ∉ F) :
    ∀ m, filterKeys F (mapPush m t e) = filterKeys F m := by
  intro m
  induction m with
  | nil => simp [mapPush, filterKeys, ht]
  | cons p rest ih =>
    obtain ⟨k, vs⟩ := p
    by_cases hkt : k = t
    · subst hkt
      simp [mapPush, filterKeys, List.filter_cons, ht]
    · by_cases hk : k ∈ F <;>
        simp [mapPush, filterKeys, List.filter_cons, hk, hkt] at ih ⊢ <;>
        exact ih

theorem pushEndpoint_filterKeys (F : List String) (acc : List (String × List EndpointMetadata))
    (t : String) (e : EndpointMetadata) :
    pushEndpoint (some F) (filterKeys F acc) t e = filterKeys F (pushEndpoint none acc t e) := by
  show (if t ∈ F then mapPush (filterKeys F acc) t e else filterKeys F acc) =
    filterKeys F (mapPush acc t e)
  by_cases ht : t ∈ F
  · rw [if_pos ht]
    exact mapPush_filterKeys_mem F t e ht acc
  · rw [if_neg ht]
    exact (filterKeys_mapPush_not_mem F t e ht acc).symm

theorem groupTags_filterKeys (F : List String) (tags : List String) (e : EndpointMetadata) :
    ∀ acc, groupTags (some F) tags e (filterKeys F acc) =
      filterKeys F (groupTags none tags e acc) := by
  induction tags with
  | nil => intro acc; rfl
  | cons t ts ih =>
    intro acc
    unfold groupTags at ih ⊢
    rw [List.foldl_cons, List.foldl_cons, pushEndpoint_filterKeys]
    exact ih (pushEndpoint none acc t e)

theorem methodStep_filterKeys (F : List String) (path : String) (item : RawPathItem)
    (acc : List (String × List EndpointMetadata)) (method : String) :
    methodStep (some F) path item (filterKeys F acc) method =
      filterKeys F (methodStep none path item acc method) := by
  unfold methodStep
  cases pathItemMethod item method with
  | none => rfl
  | some operation => exact groupTags_filterKeys F _ _ acc

theorem foldl_methodStep_filterKeys (F : List String) (path : String) (item : RawPathItem) :
    ∀ (ms : List String) (acc : List (String × List EndpointMetadata)),
      ms.foldl (methodStep (some F) path item) (filterKeys F acc) =
        filterKeys F (ms.foldl (methodStep none path item) acc) := by
  intro ms
  induction ms with
  | nil => intro acc; rfl
  | cons m ms ih =>
    intro acc
    rw [List.foldl_cons, List.foldl_cons, methodStep_filterKeys]
    exact ih (methodStep none path item acc m)

theorem groupPaths_filterKeys (F : List String) :
    ∀ (paths : List (String × Option RawPathItem))
      (acc : List (String × List EndpointMetadata)),
      groupPaths (some F) paths (filterKeys F acc) =
        filterKeys F (groupPaths none paths acc) := by
  intro paths
  induction paths with
  | nil => intro acc; rfl
  | cons entry paths ih =>
    intro acc
    unfold groupPaths at ih ⊢
    rw [List.foldl_cons, List.foldl_cons]
    have hstep : pathStep (some F) (filterKeys F acc) entry =
        filterKeys F (pathStep none acc entry) := by
      unfold pathStep
      cases entry.2 with
      | none => rfl
      | some item => exact foldl_methodStep_filterKeys F entry.1 item httpMethods acc
    rw [hstep]
    exact ih (pathStep none acc entry)

theorem map_moduleOfEntry_filterKeys (schemas : List (String × SchemaMetadata))
    (F : List String) :
    ∀ mm : List (String × List EndpointMetadata),
      (filterKeys F mm).map (moduleOfEntry schemas) =
        (mm.map (moduleOfEntry schemas)).filter (fun m => decide (m.tag ∈ F)) := by
  intro mm
  induction mm with
  | nil => rfl
  | cons entry mm ih =>
    by_cases he : entry.1 ∈ F <;>
      simp [filterKeys, List.filter_cons, moduleOfEntry, he] at ih ⊢ <;>
      exact ih

/-- The filter law, shared by the theorems for the grouping claims:
grouping with a tag filter equals unfiltered grouping followed by
filtering modules on tag membership. -/
theorem mapToModules_filter (api : RawApi) (F : List String) :
    mapToModules api (some F) =
      (mapToModules api none).filter (fun m => decide (m.tag ∈ F)) := by
  unfold mapToModules
  cases api.paths with
  | none => rfl
  | some paths =>
    show (groupPaths (some F) paths (filterKeys F [])).map _ = _
    rw [groupPaths_filterKeys]
    exact map_moduleOfEntry_filterKeys (extractSchemas api) F (groupPaths none paths [])

/-- C2: for every document and every tag filter `F`, grouping with `F`
yields exactly the subsequence of the unfiltered module sequence whose
tag is a member of `F` — the same module records, hence identical
module names, endpoint sequences and referenced schemas; an endpoint
with no declared tags participates through its single inferred tag
(capitalised first non-empty path segment with braces stripped, or
`Default` — second conjunct), and that inferred tag goes through the
same membership test, since the grouping inserts it into the very same
bucket map. -/
theorem c2_tag_filter_law :
    (∀ (api : RawApi) (F : List String),
      mapToModules api (some F) =
        (mapToModules api none).filter (fun m => decide (m.tag ∈ F))) ∧
    (∀ path : String, getTagFromPath path = specInferredTag path) := by
  constructor
  · exact mapToModules_filter
  · intro path
    unfold getTagFromPath specInferredTag
    cases jsNonEmptySegments '/' path.data <;> rfl

/-- C10: a present-but-empty tag filter produces the empty module
sequence for every document, while an absent filter keeps all modules
(on the sample document it produces a non-empty sequence) — an empty
filter is not treated as "no filter". -/
theorem c10_empty_filter :
    (∀ api : RawApi, mapToModules api (some []) = []) ∧
    mapToModules sampleApi none ≠ [] ∧
    mapToModules sampleApi (some []) ≠ mapToModules sampleApi none := by
  refine ⟨?_, by decide, by decide⟩
  intro api
  rw [mapToModules_filter]
  simp

/-- C9: rendering a module fails with the `Template not found for
library` error if and only if the selected library has no registered
template; with the four templates registered by `loadTemplates`, every
one of the four supported library choices renders without this error
(for any module, language, template values, and any behaviour of the
opaque compiled templates and of the JavaScript downgrade). -/
theorem c9_unknown_library :
    ∀ (T O : Type) (render : T → ModuleMetadata → O) (convertJs : O → O)
      (templates : List (LibraryChoice × T)) (module : ModuleMetadata)
      (library : LibraryChoice) (language : String),
      ((∃ msg, generateModule render convertJs templates module library language =
          .error msg) ↔ lookupLib templates library = none) ∧
      (∀ t1 t2 t3 t4 : T, ∃ o,
        generateModule render convertJs (loadedTemplates t1 t2 t3 t4) module library
          language = .ok o) := by
  intro T O render convertJs templates module library language
  constructor
  · unfold generateModule
    cases h : lookupLib templates library with
    | none => simp
    | some t =>
      simp only [h]
      constructor
      · rintro ⟨msg, hmsg⟩
        by_cases hl : language = "javascript" <;> simp [hl] at hmsg
      · intro hcontra
        exact absurd hcontra (by simp)
  · intro t1 t2 t3 t4
    have hsome : ∃ t, lookupLib (loadedTemplates t1 t2 t3 t4) library = some t := by
      cases library <;> exact ⟨_, rfl⟩
    obtain ⟨t, ht⟩ := hsome
    unfold generateModule
    rw [ht]
    by_cases hl : language = "javascript" <;> simp [hl]

theorem identChars_toUpper : ∀ c ∈ identChars, Char.toUpper c ∈ identChars := by decide

theorem camelSafe_chars :
    ∀ l : List Char, camelSafe l = true → ∀ c ∈ camelChars l, c ∈ identChars := by
  intro l
  induction l using camelChars.induct with
  | case1 =>
    intro _ c hc
    simp [camelChars] at hc
  | case2 e =>
    intro h x hx
    simp [camelChars] at hx
    subst hx
    simpa [camelSafe] using h
  | case3 c d rest hcond ih =>
    intro h x hx
    rw [camelChars, if_pos hcond] at hx
    rw [camelSafe, if_pos hcond, Bool.and_eq_true] at h
    rcases List.mem_cons.mp hx with rfl | hx
    · exact identChars_toUpper d (of_decide_eq_true h.1)
    · exact ih h.2 x hx
  | case4 c d rest hcond ih =>
    intro h x hx
    rw [camelChars, if_neg hcond] at hx
    rw [camelSafe, if_neg hcond, Bool.and_eq_true] at h
    rcases List.mem_cons.mp hx with rfl | hx
    · exact of_decide_eq_true h.1
    · exact ih h.2 x hx

theorem capitalizeChars_mem (l : List Char) (h : ∀ c ∈ l, c ∈ identChars) :
    ∀ c ∈ capitalizeChars l, c ∈ identChars := by
  cases l with
  | nil => intro c hc; simp [capitalizeChars] at hc
  | cons a l =>
    intro c hc
    rcases List.mem_cons.mp hc with rfl | hc
    · exact identChars_toUpper a (h a (List.mem_cons_self a l))
    · exact h c (List.mem_cons_of_mem a hc)

theorem segmentToken_chars (seg : List Char) (h : segWf seg = true) :
    ∀ c ∈ capitalizeChars (segmentToken seg), c ∈ identChars := by
  unfold segWf at h
  unfold segmentToken
  by_cases hp : isParamSegment seg = true
  · rw [if_pos hp] at h ⊢
    have hB : Char.toUpper 'B' = 'B' := by decide
    intro c hc
    simp only [capitalizeChars, hB] at hc
    rcases List.mem_cons.mp hc with rfl | hc
    · decide
    rcases List.mem_cons.mp hc with rfl | hc
    · decide
    exact capitalizeChars_mem _ (camelSafe_chars _ h) c hc
  · rw [if_neg hp] at h ⊢
    exact capitalizeChars_mem _ (camelSafe_chars _ h)

theorem flatten_tokens_mem (segs : List (List Char))
    (hsegs : ∀ seg ∈ segs, segWf seg = true) :
    ∀ d ∈ ((segs.map segmentToken).map capitalizeChars).flatten, d ∈ identChars := by
  intro d hd
  rw [List.mem_flatten] at hd
  obtain ⟨t, ht, hdt⟩ := hd
  rw [List.map_map, List.mem_map] at ht
  obtain ⟨seg, hseg, rfl⟩ := ht
  exact segmentToken_chars seg (hsegs seg hseg) d hdt

theorem identListSafe_append (c0 : Char) (cs F : List Char)
    (hc0 : c0 ∈ identStartChars) (hcs : ∀ d ∈ cs, d ∈ identChars)
    (hF : ∀ d ∈ F, d ∈ identChars) :
    isIdentListSafe ((c0 :: cs) ++ F) = true := by
  rw [List.cons_append, isIdentListSafe, Bool.and_eq_true]
  refine ⟨decide_eq_true hc0, ?_⟩
  rw [List.all_eq_true]
  intro d hd
  rcases List.mem_append.mp hd with hd | hd
  · exact decide_eq_true (hcs d hd)
  · exact decide_eq_true (hF d hd)

theorem callName_generic (method path : String) (c0 : Char) (cs : List Char)
    (hpre : method.data.map Char.toLower = c0 :: cs)
    (hc0 : c0 ∈ identStartChars) (hcs : ∀ d ∈ cs, d ∈ identChars) :
    pathToFunctionName path method ≠ "" ∧
    ((∀ seg ∈ jsNonEmptySegments '/' path.data, segWf seg = true) →
      isIdentifierSafe (pathToFunctionName path method) = true) := by
  constructor
  · unfold pathToFunctionName
    rw [hpre]
    exact mk_cons_ne_empty c0 _
  · intro hsegs
    unfold isIdentifierSafe pathToFunctionName
    show isIdentListSafe (method.data.map Char.toLower ++ _) = true
    rw [hpre]
    exact identListSafe_append c0 cs _ hc0 hcs (flatten_tokens_mem _ hsegs)

/-- C8 (amended): for every supported HTTP method and every path
template, the generated call name is non-empty (it begins with the
lower-cased method); it is additionally identifier-safe whenever every
non-empty path segment is either a braced parameter whose name, or a
literal which, consists of identifier characters with hyphens or
underscores only in camel-consumable positions (`segWf`).  Arbitrary
paths break identifier safety: segment characters are copied into the
name verbatim (see the counterexample). -/
theorem c8_call_name_shape :
    ∀ (method path : String), method ∈ ["GET", "POST", "PUT", "DELETE", "PATCH"] →
      pathToFunctionName path method ≠ "" ∧
      ((∀ seg ∈ jsNonEmptySegments '/' path.data, segWf seg = true) →
        isIdentifierSafe (pathToFunctionName path method) = true) := by
  intro method path hm
  fin_cases hm
  · exact callName_generic _ path 'g' ['e', 't'] (by decide) (by decide) (by decide)
  · exact callName_generic _ path 'p' ['o', 's', 't'] (by decide) (by decide) (by decide)
  · exact callName_generic _ path 'p' ['u', 't'] (by decide) (by decide) (by decide)
  · exact callName_generic _ path 'd' ['e', 'l', 'e', 't', 'e'] (by decide) (by decide)
      (by decide)
  · exact callName_generic _ path 'p' ['a', 't', 'c', 'h'] (by decide) (by decide) (by decide)

theorem c8_call_name_shape_witness :
    ("GET" : String) ∈ ["GET", "POST", "PUT", "DELETE", "PATCH"] ∧
    pathToFunctionName "/order-history/{orderId}" "GET" ≠ "" ∧
    isIdentifierSafe (pathToFunctionName "/order-history/{orderId}" "GET") = true :=
  ⟨by decide,
   (c8_call_name_shape "GET" "/order-history/{orderId}" (by decide)).1,
   (c8_call_name_shape "GET" "/order-history/{orderId}" (by decide)).2 (by decide)⟩

/-- C8 counterexample: the path `/a.b` (a legal URL path) yields the
call name `getA.b`, which contains a dot and is not identifier-safe;
so the claim does not hold for every path template. -/
theorem c8_counterexample :
    pathToFunctionName "/a.b" "GET" = "getA.b" ∧
    isIdentifierSafe "getA.b" = false := by decide
